import Mathlib

/-!
# Timing-recovery loop of `timing_recovery_demo.py` — a shallow embedding

This file embeds the receiver-side timing-recovery loop of
`src/dsp_training/timing_recovery_demo.py` (lines 66-115) in Lean 4 and
verifies the specification claims about it.

Modelling conventions:
* `numpy` complex samples become `ℂ`; real scalars become `ℝ`.
* The 5-tap interpolator buffer `buf` and the 3-tap derivative buffer
  `buf_dz` become functions `Fin 5 → ℂ` and `Fin 3 → ℂ`.
* The Python integer `counter` becomes `ℤ`.
* The per-iteration body of the `for` loop (lines 80-115) becomes the pure
  step function `step`; running the loop over the input becomes a fold
  (`runAux` / `run`) that also records the per-cycle traces the script
  stores (`mf_samples`, `tau_vect`, `dtau_vect`) plus, as a ghost
  observable, the TED error emitted on strobe cycles.
-/

namespace TimingRecovery

/-- Loop configuration.  In the script these are module-level constants:
`samples_per_symbol = 4` (line 21), `alpha = 0.005` (line 71),
`beta = 2*np.sqrt(alpha)` (line 72).  We keep them abstract so theorems can
quantify over them; `srcCfg` below is the concrete configuration of the
script. -/
structure Config where
  R : ℕ
  alpha : ℝ
  beta : ℝ

/-- The concrete configuration used by the script. -/
noncomputable def srcCfg : Config :=
  { R := 4, alpha := 0.005, beta := 2 * Real.sqrt 0.005 }

/-- The numpy function `np.sinc`, the normalized sinc:
`sin(pi x)/(pi x)` with value `1` at `0`. -/
noncomputable def sinc (x : ℝ) : ℝ :=
  if x = 0 then 1 else Real.sin (Real.pi * x) / (Real.pi * x)

/-- The numpy window `np.hamming(5)`: the 5-point Hamming window,
`0.54 - 0.46*cos(2 pi n / 4)` for `n = 0,...,4`. -/
noncomputable def hamming5 (n : Fin 5) : ℝ :=
  0.54 - 0.46 * Real.cos (2 * Real.pi * (n : ℝ) / 4)

/-- Line 70: `w = np.sqrt(np.hamming(5).T)` — the window applied to the
interpolating filter is the square root of the Hamming window. -/
noncomputable def w (n : Fin 5) : ℝ :=
  Real.sqrt (hamming5 n)

/-- Line 69: `th = np.array([-2., -1., 0., 1., 2.])`, the time vector of the
interpolating filter. -/
def th : Fin 5 → ℝ
  | 0 => -2
  | 1 => -1
  | 2 => 0
  | 3 => 1
  | 4 => 2

/-- Line 86: `hi = np.sinc(th - tau) * w`, the interpolating filter
coefficients recomputed each cycle from the current `tau`. -/
noncomputable def hi (tau : ℝ) (n : Fin 5) : ℝ :=
  sinc (th n - tau) * w n

/-- Lines 82-83: `buf[:-1] = buf[1:]; buf[-1] = x` — shift the 5-element raw
sample buffer left by one and append the incoming sample. -/
def pushBuf (b : Fin 5 → ℂ) (x : ℂ) : Fin 5 → ℂ
  | 0 => b 1
  | 1 => b 2
  | 2 => b 3
  | 3 => b 4
  | 4 => x

/-- Line 87: `mf_samples[i] = np.dot(buf, np.flip(hi))` — the interpolator
output is the inner product of the raw buffer with the reversed kernel
(`np.flip(hi)[k] = hi[4-k]`, i.e. `hi` at `Fin.rev k`). -/
noncomputable def interpOut (tau : ℝ) (b : Fin 5 → ℂ) : ℂ :=
  ∑ k : Fin 5, b k * ((hi tau (Fin.rev k) : ℝ) : ℂ)

/-- Lines 90-91: `buf_dz[:-1] = buf_dz[1:]; buf_dz[-1] = y` — shift the
3-element derivative buffer and append the fresh interpolator output. -/
def pushDz (d : Fin 3 → ℂ) (y : ℂ) : Fin 3 → ℂ
  | 0 => d 1
  | 1 => d 2
  | 2 => y

/-- Line 92: `dz = -np.dot(buf_dz, np.array([-1, 0, 1]))` — centered
difference over the derivative buffer. -/
def derivOf (d : Fin 3 → ℂ) : ℂ :=
  -(d 0 * (-1) + d 1 * 0 + d 2 * 1)

/-- Line 101: `err = np.tanh((dz * np.conj(mf_samples[i-1])).real)` — the
timing-error detector. -/
noncomputable def tedErr (dz prev : ℂ) : ℝ :=
  Real.tanh ((dz * (starRingEnd ℂ) prev).re)

/-- Lines 104-108, the body of the strobe branch acting on `(tau, dtau)`:
`tau += alpha*err` (line 104), `dtau += alpha*err` (line 107),
`tau += beta*err` (line 108), in that order.  Returns the new
`(tau, dtau)`. -/
def strobeBranch (cfg : Config) (tau dtau err : ℝ) : ℝ × ℝ :=
  let tau1 := tau + cfg.alpha * err
  let dtau1 := dtau + cfg.alpha * err
  let tau2 := tau1 + cfg.beta * err
  (tau2, dtau1)

/-- Result of the counter/strobe phase of one cycle (lines 95-108):
the `(tau, dtau)` pair after any strobe update, the new counter, and the
TED error (`some err` exactly when the cycle strobed). -/
structure Phase where
  tau : ℝ
  dtau : ℝ
  counter : ℤ
  err : Option ℝ

/-- Lines 95-108: `counter = counter + 1; if counter >= samples_per_symbol:`
then decrement the counter by `R`, compute the TED error and run the strobe
branch; otherwise leave `tau`, `dtau` untouched.  The error argument is the
value line 101 would compute (it is only used, and only reported, on a
strobe). -/
def strobePhase (cfg : Config) (tau dtau : ℝ) (counter : ℤ) (err : ℝ) :
    Phase :=
  if (cfg.R : ℤ) ≤ counter + 1 then
    { tau := (strobeBranch cfg tau dtau err).1
      dtau := (strobeBranch cfg tau dtau err).2
      counter := counter + 1 - cfg.R
      err := some err }
  else
    { tau := tau, dtau := dtau, counter := counter + 1, err := none }

/-- The mutable loop state of lines 66-78: `tau`, `dtau`, `counter`,
the raw-sample buffer `buf`, the derivative buffer `buf_dz`, and the
previous interpolator output (`mf_samples[i-1]`, which the TED reads at
line 101; initially `mf_samples[0] = 0`). -/
structure State where
  tau : ℝ
  dtau : ℝ
  counter : ℤ
  buf : Fin 5 → ℂ
  buf_dz : Fin 3 → ℂ
  prev_mf : ℂ

/-- Line 60: `sample_delay = int((len(th)-1)/2)`. -/
def sample_delay : ℕ := (5 - 1) / 2

/-- Lines 66-78: initial state — `tau = 0`, `dtau = 0`,
`counter = sample_delay + 1 = 3`, zero-filled buffers, and
`mf_samples[0] = 0`. -/
def initState : State :=
  { tau := 0, dtau := 0, counter := (sample_delay : ℤ) + 1
    buf := fun _ => 0, buf_dz := fun _ => 0, prev_mf := 0 }

/-- Everything one loop iteration produces: the new state, the interpolator
output `mf_samples[i]`, and the TED error when the cycle strobed. -/
structure StepOut where
  s : State
  out : ℂ
  err : Option ℝ

/-- One iteration of the `for` loop, lines 80-115: push the raw buffer,
interpolate with the current `tau`, push the derivative buffer, run the
counter/strobe phase, then apply the unconditional drift update
`tau = tau + dtau/samples_per_symbol` (line 111) using the post-strobe
`dtau`. -/
noncomputable def step (cfg : Config) (s : State) (x : ℂ) : StepOut :=
  let bufN := pushBuf s.buf x
  let out := interpOut s.tau bufN
  let dzBuf := pushDz s.buf_dz out
  let p := strobePhase cfg s.tau s.dtau s.counter
    (tedErr (derivOf dzBuf) s.prev_mf)
  { s := { tau := p.tau + p.dtau / (cfg.R : ℝ), dtau := p.dtau
           counter := p.counter, buf := bufN, buf_dz := dzBuf
           prev_mf := out }
    out := out
    err := p.err }

/-- The final state plus the recorded traces of a run: the interpolator
outputs (`mf_samples[1:]`), the saved `tau_vect[1:]` and `dtau_vect[1:]`
(lines 114-115 record the post-update values each cycle), and the ghost
trace of TED errors (`some e` on strobe cycles, `none` otherwise). -/
structure RunOut where
  s : State
  mf : List ℂ
  taus : List ℝ
  dtaus : List ℝ
  errs : List (Option ℝ)

/-- Fold `step` over a list of samples, recording the traces. -/
noncomputable def runAux (cfg : Config) (s : State) : List ℂ → RunOut
  | [] => { s := s, mf := [], taus := [], dtaus := [], errs := [] }
  | x :: xs =>
    let o := step cfg s x
    let r := runAux cfg o.s xs
    { s := r.s, mf := o.out :: r.mf, taus := o.s.tau :: r.taus
      dtaus := o.s.dtau :: r.dtaus, errs := o.err :: r.errs }

/-- The whole loop, line 80: `for i in range(1, len(mf_samples_with_offset))`
— the loop starts at index 1, so exactly the tail of the input is
processed, from the initial state. -/
noncomputable def run (cfg : Config) (input : List ℂ) : RunOut :=
  runAux cfg initState input.tail

/-- Number of strobe cycles (= emitted symbols) in a run. -/
def numStrobes (r : RunOut) : ℕ :=
  r.errs.countP fun o => o.isSome

/-- The TED error value a cycle would use: line 101 evaluated on the freshly
pushed buffers and the previous interpolator output. -/
noncomputable def stepErrVal (s : State) (x : ℂ) : ℝ :=
  tedErr (derivOf (pushDz s.buf_dz (interpOut s.tau (pushBuf s.buf x)))) s.prev_mf

/-! ## Projection lemmas for one step -/

lemma step_counter (cfg : Config) (s : State) (x : ℂ) :
    (step cfg s x).s.counter =
      if (cfg.R : ℤ) ≤ s.counter + 1 then s.counter + 1 - cfg.R
      else s.counter + 1 := by
  simp only [step, strobePhase]
  split <;> rfl

lemma step_err (cfg : Config) (s : State) (x : ℂ) :
    (step cfg s x).err =
      if (cfg.R : ℤ) ≤ s.counter + 1 then some (stepErrVal s x) else none := by
  simp only [step, strobePhase, stepErrVal]
  split <;> rfl

lemma step_dtau (cfg : Config) (s : State) (x : ℂ) :
    (step cfg s x).s.dtau =
      if (cfg.R : ℤ) ≤ s.counter + 1 then s.dtau + cfg.alpha * stepErrVal s x
      else s.dtau := by
  simp only [step, strobePhase, stepErrVal, strobeBranch]
  split <;> rfl

lemma step_tau (cfg : Config) (s : State) (x : ℂ) :
    (step cfg s x).s.tau =
      (if (cfg.R : ℤ) ≤ s.counter + 1 then
        (strobeBranch cfg s.tau s.dtau (stepErrVal s x)).1
       else s.tau) + (step cfg s x).s.dtau / (cfg.R : ℝ) := by
  simp only [step, strobePhase, stepErrVal, strobeBranch]
  split <;> rfl

lemma step_out (cfg : Config) (s : State) (x : ℂ) :
    (step cfg s x).out = interpOut s.tau (pushBuf s.buf x) := by
  simp only [step]

lemma step_prev_mf (cfg : Config) (s : State) (x : ℂ) :
    (step cfg s x).s.prev_mf = (step cfg s x).out := by
  simp only [step]

/-! ## Claims -/

/-- C1, counterexample.  The claim says the strobe branch changes `tau` by
exactly `beta * error` (and changes nothing else besides `dtau`).  But line
104 of the source also executes `tau = tau + alpha*err` inside the strobe
branch, so starting from `tau = 0`, `dtau = 0` with `err = 1` the new `tau`
is `alpha + beta`, not `beta`. -/
theorem C1_counterexample :
    (strobeBranch srcCfg 0 0 1).1 ≠ 0 + srcCfg.beta * 1 := by
  simp only [strobeBranch, srcCfg]
  intro h
  norm_num at h

/-- C1, amended.  At every strobe cycle the strobe branch performs, in
order, `tau += alpha*err` (line 104), `dtau += alpha*err` (line 107),
`tau += beta*err` (line 108), all with the same error value; so before the
per-sample drift term, `dtau` has increased by exactly `alpha*err` and `tau`
by exactly `(alpha + beta)*err`. -/
theorem C1_amended_strobe_update (cfg : Config) (s : State) (x : ℂ)
    (h : (cfg.R : ℤ) ≤ s.counter + 1) :
    (step cfg s x).s.dtau = s.dtau + cfg.alpha * stepErrVal s x ∧
    (step cfg s x).s.tau =
      s.tau + (cfg.alpha + cfg.beta) * stepErrVal s x
        + (step cfg s x).s.dtau / (cfg.R : ℝ) := by
  refine ⟨by rw [step_dtau, if_pos h], ?_⟩
  rw [step_tau, if_pos h, step_dtau, if_pos h]
  simp only [strobeBranch]
  ring

/-- C1, witness: the first cycle of the source configuration strobes
(`counter + 1 = 4 ≥ 4`), and the amended update equations hold there. -/
theorem C1_witness :
    ((srcCfg.R : ℤ) ≤ initState.counter + 1) ∧
    ((step srcCfg initState 0).s.dtau
        = initState.dtau + srcCfg.alpha * stepErrVal initState 0 ∧
     (step srcCfg initState 0).s.tau
        = initState.tau + (srcCfg.alpha + srcCfg.beta) * stepErrVal initState 0
            + (step srcCfg initState 0).s.dtau / (srcCfg.R : ℝ)) := by
  have h : (srcCfg.R : ℤ) ≤ initState.counter + 1 := by
    norm_num [srcCfg, initState, sample_delay]
  exact ⟨h, C1_amended_strobe_update srcCfg initState 0 h⟩

/-- C2: on every cycle the final `tau` is the post-strobe `tau` plus exactly
`dtau / R` computed with the post-strobe `dtau` (line 111); on a non-strobe
cycle that drift term is the only change to `tau`, and `dtau` is
unchanged. -/
theorem C2_drift_update (cfg : Config) (s : State) (x : ℂ) :
    ((step cfg s x).s.tau =
      (if (cfg.R : ℤ) ≤ s.counter + 1 then
        (strobeBranch cfg s.tau s.dtau (stepErrVal s x)).1
       else s.tau) + (step cfg s x).s.dtau / (cfg.R : ℝ)) ∧
    (s.counter + 1 < (cfg.R : ℤ) →
      (step cfg s x).s.tau = s.tau + s.dtau / (cfg.R : ℝ) ∧
      (step cfg s x).s.dtau = s.dtau) := by
  refine ⟨step_tau cfg s x, fun h => ?_⟩
  have h2 : ¬ ((cfg.R : ℤ) ≤ s.counter + 1) := by omega
  refine ⟨?_, by rw [step_dtau, if_neg h2]⟩
  rw [step_tau, if_neg h2, step_dtau, if_neg h2]

/-- C2, witness: a concrete non-strobe cycle (counter `0`, so
`0 + 1 < 4`) where the drift term is the only change to `tau` and `dtau`
is unchanged. -/
theorem C2_witness :
    (({ initState with counter := 0 } : State).counter + 1 < (srcCfg.R : ℤ)) ∧
    ((step srcCfg { initState with counter := 0 } 0).s.tau
        = ({ initState with counter := 0 } : State).tau
          + ({ initState with counter := 0 } : State).dtau / (srcCfg.R : ℝ) ∧
     (step srcCfg { initState with counter := 0 } 0).s.dtau
        = ({ initState with counter := 0 } : State).dtau) := by
  have h : ({ initState with counter := 0 } : State).counter + 1
      < (srcCfg.R : ℤ) := by norm_num [srcCfg, initState]
  exact ⟨h, (C2_drift_update srcCfg { initState with counter := 0 } 0).2 h⟩

/-- C3: the TED fires exactly on strobe cycles, and on a strobe its output
is `tanh(Re(derivative * conj(previous interpolated sample)))`, where the
derivative comes from the freshly pushed derivative buffer and the previous
interpolated sample is the state field that the step then refills with the
current interpolator output (so it always holds the output of the
preceding cycle, `mf_samples[i-1]`). -/
theorem C3_ted_formula (cfg : Config) (s : State) (x : ℂ) :
    ((step cfg s x).err.isSome ↔ (cfg.R : ℤ) ≤ s.counter + 1) ∧
    ((cfg.R : ℤ) ≤ s.counter + 1 →
      (step cfg s x).err = some (Real.tanh
        ((derivOf (pushDz s.buf_dz (interpOut s.tau (pushBuf s.buf x)))
          * (starRingEnd ℂ) s.prev_mf).re))) ∧
    (step cfg s x).s.prev_mf = (step cfg s x).out := by
  refine ⟨?_, fun h => ?_, step_prev_mf cfg s x⟩
  · by_cases h : (cfg.R : ℤ) ≤ s.counter + 1 <;> simp [step_err, h]
  · rw [step_err, if_pos h]
    rfl

/-- C3, witness: the first cycle of the source configuration strobes and
the TED output there is the claimed formula. -/
theorem C3_witness :
    ((srcCfg.R : ℤ) ≤ initState.counter + 1) ∧
    (step srcCfg initState 0).err = some (Real.tanh
      ((derivOf (pushDz initState.buf_dz
          (interpOut initState.tau (pushBuf initState.buf 0)))
        * (starRingEnd ℂ) initState.prev_mf).re)) := by
  have h : (srcCfg.R : ℤ) ≤ initState.counter + 1 := by
    norm_num [srcCfg, initState, sample_delay]
  exact ⟨h, (C3_ted_formula srcCfg initState 0).2.1 h⟩

/-- C6: every cycle increments the counter by exactly 1 before testing it
against `R`; the cycle strobes (the TED fires) precisely when the
incremented counter is at least `R`, and then the counter is decremented by
exactly `R` once. -/
theorem C6_strobe_counter (cfg : Config) (s : State) (x : ℂ) :
    ((step cfg s x).s.counter =
      if (cfg.R : ℤ) ≤ s.counter + 1 then s.counter + 1 - cfg.R
      else s.counter + 1) ∧
    ((step cfg s x).err.isSome ↔ (cfg.R : ℤ) ≤ s.counter + 1) := by
  refine ⟨step_counter cfg s x, ?_⟩
  by_cases h : (cfg.R : ℤ) ≤ s.counter + 1 <;> simp [step_err, h]

/-- One full strobe cycle of the loop filter with the TED error held at a
constant `e`: the strobe branch (lines 104-108) followed by the per-sample
drift term (line 111), acting on the pair `(tau, dtau)`. -/
noncomputable def constErrCycle (cfg : Config) (e : ℝ) (p : ℝ × ℝ) : ℝ × ℝ :=
  ((strobeBranch cfg p.1 p.2 e).1 + (strobeBranch cfg p.1 p.2 e).2 / (cfg.R : ℝ),
   (strobeBranch cfg p.1 p.2 e).2)

/-- C8: holding the TED error constant at `e` for `n` consecutive strobe
cycles drives the rate estimate to exactly `dtau_0 + n*alpha*e`, for every
`n`, `e` and starting pair, independently of the interpolator. -/
theorem C8_loop_filter_linearity (cfg : Config) (e tau0 dtau0 : ℝ) (n : ℕ) :
    ((constErrCycle cfg e)^[n] (tau0, dtau0)).2 = dtau0 + n * cfg.alpha * e := by
  induction n with
  | zero => simp
  | succ n ih =>
    rw [Function.iterate_succ_apply']
    simp only [constErrCycle, strobeBranch]
    rw [ih]
    push_cast
    ring

/-- The interpolation kernel as claim C5 words it: a plain Hamming-windowed
sinc (window `np.hamming(5)` itself, not its square root), evaluated at the
offsets shifted by `-tau`.  This is the refinement comparison point for the
kernel the source actually computes (`hi`). -/
noncomputable def hiClaim (tau : ℝ) (n : Fin 5) : ℝ :=
  sinc (th n - tau) * hamming5 n

lemma hamming5_one : hamming5 1 = 0.54 := by
  simp only [hamming5]
  have h1 : ((1 : Fin 5) : ℝ) = 1 := by norm_num
  rw [h1]
  have h2 : 2 * Real.pi * 1 / 4 = Real.pi / 2 := by ring
  rw [h2, Real.cos_pi_div_two]
  norm_num

lemma sinc_neg_three_halves_ne : sinc (-(3 / 2)) ≠ 0 := by
  have hsin : Real.sin (Real.pi * (-(3 / 2))) = 1 := by
    have h : Real.pi * (-(3 / 2)) = -(Real.pi + Real.pi / 2) := by ring
    rw [h, Real.sin_neg, Real.sin_add, Real.sin_pi, Real.cos_pi,
      Real.sin_pi_div_two, Real.cos_pi_div_two]
    norm_num
  simp only [sinc]
  rw [if_neg (by norm_num), hsin]
  exact div_ne_zero one_ne_zero
    (mul_ne_zero Real.pi_ne_zero (by norm_num))

/-- C5, counterexample.  The claim describes the kernel as a
Hamming-windowed sinc, but line 70 of the source takes the SQUARE ROOT of
the Hamming window (`w = np.sqrt(np.hamming(5).T)`).  At `tau = 1/2` the
coefficient at offset `-1` differs: the sinc factor is nonzero there and
`sqrt(0.54) ≠ 0.54`. -/
theorem C5_counterexample : hi (1 / 2) 1 ≠ hiClaim (1 / 2) 1 := by
  simp only [hi, hiClaim, w]
  have hth : th 1 - 1 / 2 = -(3 / 2) := by
    show (-1 : ℝ) - 1 / 2 = -(3 / 2)
    norm_num
  rw [hth, hamming5_one]
  intro heq
  have hs := mul_left_cancel₀ sinc_neg_three_halves_ne heq
  have h2 := Real.sq_sqrt (show (0 : ℝ) ≤ 0.54 by norm_num)
  rw [hs] at h2
  norm_num at h2

/-- C5, amended: on every cycle the interpolator output is the inner
product of the freshly pushed 5-element raw buffer with the reversed
kernel, where the kernel is a square-root-of-Hamming-windowed sinc
evaluated at the offsets `{-2,-1,0,1,2}` shifted by `-tau` (current `tau`);
no per-sample renormalization is applied (the output is exactly this inner
product, with no normalizing divisor). -/
theorem C5_amended_kernel (cfg : Config) (s : State) (x : ℂ) :
    (step cfg s x).out =
      ∑ k : Fin 5, pushBuf s.buf x k *
        ((sinc (th (Fin.rev k) - s.tau)
          * Real.sqrt (hamming5 (Fin.rev k)) : ℝ) : ℂ) := by
  rw [step_out]
  simp only [interpOut, hi, w]

lemma tanh_mem_Icc (y : ℝ) : -1 ≤ Real.tanh y ∧ Real.tanh y ≤ 1 := by
  have key : ∀ z : ℝ, Real.tanh z ≤ 1 := by
    intro z
    rw [Real.tanh_eq_sinh_div_cosh]
    exact le_of_lt ((div_lt_one (Real.cosh_pos z)).mpr (Real.sinh_lt_cosh z))
  refine ⟨?_, key y⟩
  have h := key (-y)
  rw [Real.tanh_neg] at h
  linarith

/-- Every recorded TED value of a run is either absent (no strobe) or of
the form `tanh _`. -/
lemma errs_mem_form (cfg : Config) (o : Option ℝ) :
    ∀ (s : State) (xs : List ℂ), o ∈ (runAux cfg s xs).errs →
      o = none ∨ ∃ y, o = some (Real.tanh y) := by
  intro s xs
  induction xs generalizing s with
  | nil => intro h; simp [runAux] at h
  | cons x xs ih =>
    intro h
    simp only [runAux, List.mem_cons] at h
    rcases h with h | h
    · subst h
      rw [step_err]
      split
      · exact Or.inr ⟨_, rfl⟩
      · exact Or.inl rfl
    · exact ih _ h

/-- C4: on every strobe cycle of every run, the TED output lies in the
closed interval `[-1, 1]` (the tanh nonlinearity bounds it). -/
theorem C4_ted_bounded (cfg : Config) (input : List ℂ) (e : ℝ)
    (h : some e ∈ (run cfg input).errs) : -1 ≤ e ∧ e ≤ 1 := by
  rcases errs_mem_form cfg (some e) initState input.tail h with h0 | ⟨y, hy⟩
  · simp at h0
  · obtain rfl : e = Real.tanh y := Option.some.inj hy
    exact tanh_mem_Icc y

/-- C4, witness: on the all-zero input of length 2 the single cycle
strobes with TED output `tanh 0 = 0`, which lies in `[-1, 1]`. -/
theorem C4_witness :
    some (0 : ℝ) ∈ (run srcCfg [0, 0]).errs ∧ (-1 ≤ (0 : ℝ) ∧ (0 : ℝ) ≤ 1) := by
  have hmem : some (0 : ℝ) ∈ (run srcCfg [0, 0]).errs := by
    simp [run, runAux, step, strobePhase, tedErr, derivOf, pushDz, interpOut,
      pushBuf, initState, srcCfg, sample_delay, strobeBranch,
      Fin.sum_univ_five, Real.tanh_zero]
  exact ⟨hmem, C4_ted_bounded srcCfg [0, 0] 0 hmem⟩

/-! ## Strobe counting -/

/-- The counter balance equation: each cycle adds 1 to the counter and each
strobe subtracts `R`, so after a run the counter equals the initial counter
plus the number of cycles minus `R` times the number of strobes. -/
lemma run_counter_eq (cfg : Config) : ∀ (xs : List ℂ) (s : State),
    (runAux cfg s xs).s.counter
      = s.counter + xs.length
        - (cfg.R : ℤ) * (((runAux cfg s xs).errs.countP fun o => o.isSome) : ℤ) := by
  intro xs
  induction xs with
  | nil => intro s; simp [runAux]
  | cons x xs ih =>
    intro s
    simp only [runAux, List.countP_cons]
    rw [ih, step_counter, step_err]
    by_cases h : (cfg.R : ℤ) ≤ s.counter + 1
    · simp only [if_pos h, Option.isSome_some, List.length_cons]
      push_cast
      ring
    · simp only [if_neg h, Option.isSome_none, List.length_cons]
      push_cast
      ring

/-- Range invariant for the strobe counter: it stays nonnegative, never
exceeds `max 3 (R-1)`, and in the degenerate case `R = 1` it is pinned at
its initial value 3. -/
def CounterInv (cfg : Config) (c : ℤ) : Prop :=
  0 ≤ c ∧ (c ≤ 3 ∨ c ≤ (cfg.R : ℤ) - 1) ∧ (cfg.R = 1 → c = 3)

lemma counterInv_step (cfg : Config) (hR : 1 ≤ cfg.R) (s : State) (x : ℂ)
    (h : CounterInv cfg s.counter) :
    CounterInv cfg (step cfg s x).s.counter := by
  obtain ⟨h0, h1, h2⟩ := h
  have hR1 : (1 : ℤ) ≤ (cfg.R : ℤ) := by exact_mod_cast hR
  rw [step_counter]
  by_cases hone : cfg.R = 1
  · have hc3 := h2 hone
    have hRz : (cfg.R : ℤ) = 1 := by exact_mod_cast hone
    refine ⟨?_, ?_, fun _ => ?_⟩ <;> split <;> omega
  · refine ⟨?_, ?_, fun hx => absurd hx hone⟩ <;> split <;> omega

lemma counterInv_runAux (cfg : Config) (hR : 1 ≤ cfg.R) :
    ∀ (xs : List ℂ) (s : State), CounterInv cfg s.counter →
      CounterInv cfg (runAux cfg s xs).s.counter := by
  intro xs
  induction xs with
  | nil => intro s h; exact h
  | cons x xs ih =>
    intro s h
    simp only [runAux]
    exact ih _ (counterInv_step cfg hR s x h)

/-- Pure integer arithmetic behind C7: the counter balance equation plus
the counter range invariant pin the strobe count to within one of
`floor(L/R)`. -/
lemma strobe_count_arith (R K q n c m : ℤ)
    (hR : 1 ≤ R) (hA : R * K = 3 + n - c) (hB : R * q + m = n + 1)
    (hc1 : c ≤ 3 ∨ c ≤ R - 1) (hcR1 : R = 1 → c = 3)
    (hc0 : 0 ≤ c) (hm0 : 0 ≤ m) (hm1 : m < R) :
    -1 ≤ K - q ∧ K - q ≤ 1 := by
  constructor
  · by_contra hlt
    push_neg at hlt
    have hKq : K + 2 ≤ q := by omega
    have hmul : R * (K + 2) ≤ R * q := mul_le_mul_of_nonneg_left hKq (by omega)
    have hexp : R * (K + 2) = R * K + 2 * R := by ring
    rcases hc1 with h | h <;> linarith
  · by_contra hlt
    push_neg at hlt
    have hqK : q + 2 ≤ K := by omega
    have hmul : R * (q + 2) ≤ R * K := mul_le_mul_of_nonneg_left hqK (by omega)
    have hexp : R * (q + 2) = R * q + 2 * R := by ring
    have h2R : 2 * R ≤ 2 + m - c := by linarith
    have hRone : R = 1 := by
      rcases hc1 with h | h <;> linarith
    have hc3 : c = 3 := hcR1 hRone
    linarith

lemma initState_counter : initState.counter = 3 := by
  norm_num [initState, sample_delay]

/-- C7: for every input length `L` and every oversampling ratio `R ≥ 1`,
with the fixed initial counter `sample_delay + 1 = 3`, the number of strobe
cycles differs from `floor(L / R)` by at most 1. -/
theorem C7_strobe_count (cfg : Config) (input : List ℂ) (hR : 1 ≤ cfg.R) :
    |(numStrobes (run cfg input) : ℤ) - ((input.length / cfg.R : ℕ) : ℤ)| ≤ 1 := by
  rw [abs_le]
  cases input with
  | nil =>
    simp [run, runAux, numStrobes]
  | cons a rest =>
    have hceq := run_counter_eq cfg rest initState
    have hinv := counterInv_runAux cfg hR rest initState
      ⟨by rw [initState_counter]; norm_num,
        Or.inl (by rw [initState_counter]),
        fun _ => initState_counter⟩
    obtain ⟨h0, h1, h2⟩ := hinv
    have hdm := Nat.div_add_mod (a :: rest).length cfg.R
    have hmlt : (a :: rest).length % cfg.R < cfg.R :=
      Nat.mod_lt _ (by omega)
    have hRz : (1 : ℤ) ≤ (cfg.R : ℤ) := by exact_mod_cast hR
    have hB : (cfg.R : ℤ) * (((a :: rest).length / cfg.R : ℕ) : ℤ)
        + (((a :: rest).length % cfg.R : ℕ) : ℤ) = (rest.length : ℤ) + 1 := by
      have h := congrArg (fun t : ℕ => (t : ℤ)) hdm
      simp only [List.length_cons] at h ⊢
      push_cast at h ⊢
      linarith
    have hA : (cfg.R : ℤ) * (numStrobes (run cfg (a :: rest)) : ℤ)
        = 3 + (rest.length : ℤ) - (runAux cfg initState rest).s.counter := by
      have : numStrobes (run cfg (a :: rest))
          = (runAux cfg initState rest).errs.countP fun o => o.isSome := rfl
      rw [this]
      rw [initState_counter] at hceq
      linarith
    exact strobe_count_arith (cfg.R : ℤ) _ _ (rest.length : ℤ)
      ((runAux cfg initState rest).s.counter)
      (((a :: rest).length % cfg.R : ℕ) : ℤ) hRz hA hB h1
      (fun hRo => h2 (by exact_mod_cast hRo)) h0 (by positivity)
      (by exact_mod_cast hmlt)

/-- C7, witness: the source ratio is positive and on a length-1 input the
strobe count 0 is within 1 of `floor(1/4) = 0`. -/
theorem C7_witness :
    1 ≤ srcCfg.R ∧
    |(numStrobes (run srcCfg [0]) : ℤ) - ((([0] : List ℂ).length / srcCfg.R : ℕ) : ℤ)| ≤ 1 := by
  have h : 1 ≤ srcCfg.R := by norm_num [srcCfg]
  exact ⟨h, C7_strobe_count srcCfg [0] h⟩

/-! ## The result vectors, written in place -/

/-- Lines 74-78 and 113-115: the loop writes `mf_samples[i]`, `tau_vect[i]`
and `dtau_vect[i]` into zero-initialized vectors of length `len(input)`
while `i` counts up from 1.  (`tau_vect`/`dtau_vect` are stored as complex
in the script but only ever hold real values; we model them as `ℝ`.) -/
noncomputable def writeAux (cfg : Config) :
    State → List ℂ → ℕ → List ℂ × List ℝ × List ℝ → List ℂ × List ℝ × List ℝ
  | _, [], _, acc => acc
  | s, x :: xs, i, acc =>
    let o := step cfg s x
    writeAux cfg o.s xs (i + 1)
      (acc.1.set i o.out, acc.2.1.set i o.s.tau, acc.2.2.set i o.s.dtau)

/-- The final `mf_samples` vector. -/
noncomputable def mfArr (cfg : Config) (input : List ℂ) : List ℂ :=
  (writeAux cfg initState input.tail 1
    (List.replicate input.length 0, List.replicate input.length 0,
      List.replicate input.length 0)).1

/-- The final `tau_vect` vector. -/
noncomputable def tauArr (cfg : Config) (input : List ℂ) : List ℝ :=
  (writeAux cfg initState input.tail 1
    (List.replicate input.length 0, List.replicate input.length 0,
      List.replicate input.length 0)).2.1

/-- The final `dtau_vect` vector. -/
noncomputable def dtauArr (cfg : Config) (input : List ℂ) : List ℝ :=
  (writeAux cfg initState input.tail 1
    (List.replicate input.length 0, List.replicate input.length 0,
      List.replicate input.length 0)).2.2

/-- Writes at indices `≥ 1` never touch entry 0 of any of the three
vectors. -/
lemma writeAux_getElem_zero (cfg : Config) :
    ∀ (xs : List ℂ) (s : State) (i : ℕ) (acc : List ℂ × List ℝ × List ℝ),
      1 ≤ i →
      (writeAux cfg s xs i acc).1[0]? = acc.1[0]? ∧
      (writeAux cfg s xs i acc).2.1[0]? = acc.2.1[0]? ∧
      (writeAux cfg s xs i acc).2.2[0]? = acc.2.2[0]? := by
  intro xs
  induction xs with
  | nil => intro s i acc hi; exact ⟨rfl, rfl, rfl⟩
  | cons x xs ih =>
    intro s i acc hi
    simp only [writeAux]
    have hih := ih (step cfg s x).s (i + 1)
      (acc.1.set i (step cfg s x).out, acc.2.1.set i (step cfg s x).s.tau,
        acc.2.2.set i (step cfg s x).s.dtau) (by omega)
    have hne : i ≠ 0 := by omega
    refine ⟨?_, ?_, ?_⟩
    · rw [hih.1]; exact List.getElem?_set_ne hne
    · rw [hih.2.1]; exact List.getElem?_set_ne hne
    · rw [hih.2.2]; exact List.getElem?_set_ne hne

/-- The error trace has one entry per processed sample. -/
lemma runAux_errs_length (cfg : Config) :
    ∀ (xs : List ℂ) (s : State), (runAux cfg s xs).errs.length = xs.length := by
  intro xs
  induction xs with
  | nil => intro s; rfl
  | cons x xs ih => intro s; simp only [runAux, List.length_cons, ih]

/-- C10: the loop starts at input index 1, so the first input sample is
never processed (the whole run result only depends on the tail), the
interpolated-output, tau and dtau vectors keep their zero initial values at
index 0, and exactly `len(input) - 1` samples are processed (the trace has
`len(input) - 1` entries). -/
theorem C10_first_sample_skipped (cfg : Config) (a : ℂ) (rest : List ℂ) :
    (∀ b : ℂ, run cfg (a :: rest) = run cfg (b :: rest)) ∧
    (mfArr cfg (a :: rest))[0]? = some 0 ∧
    (tauArr cfg (a :: rest))[0]? = some 0 ∧
    (dtauArr cfg (a :: rest))[0]? = some 0 ∧
    (run cfg (a :: rest)).errs.length = (a :: rest).length - 1 := by
  have hz := writeAux_getElem_zero cfg rest initState 1
    (List.replicate (a :: rest).length 0, List.replicate (a :: rest).length 0,
      List.replicate (a :: rest).length 0) le_rfl
  have hrep : ∀ α : Type, ∀ z : α,
      (List.replicate (a :: rest).length z)[0]? = some z := by
    intro α z
    exact List.getElem?_replicate_of_lt (by simp)
  refine ⟨fun b => rfl, ?_, ?_, ?_, ?_⟩
  · rw [show mfArr cfg (a :: rest)
        = (writeAux cfg initState rest 1
            (List.replicate (a :: rest).length 0,
              List.replicate (a :: rest).length 0,
              List.replicate (a :: rest).length 0)).1 from rfl]
    rw [hz.1]; exact hrep ℂ 0
  · rw [show tauArr cfg (a :: rest)
        = (writeAux cfg initState rest 1
            (List.replicate (a :: rest).length 0,
              List.replicate (a :: rest).length 0,
              List.replicate (a :: rest).length 0)).2.1 from rfl]
    rw [hz.2.1]; exact hrep ℝ 0
  · rw [show dtauArr cfg (a :: rest)
        = (writeAux cfg initState rest 1
            (List.replicate (a :: rest).length 0,
              List.replicate (a :: rest).length 0,
              List.replicate (a :: rest).length 0)).2.2 from rfl]
    rw [hz.2.2]; exact hrep ℝ 0
  · rw [show run cfg (a :: rest) = runAux cfg initState rest from rfl,
      runAux_errs_length]
    simp

end TimingRecovery
